import Mathlib

/-!
Verification development for the chrome-mcp-agent repository.

The file shallowly embeds the DOM outline summarizer, the breakpoint plan
validator, the CDP capability resolver and the instrumentation generator
(together with the runtime behavior of the generated code fragments), and
proves the stated properties about them.
-/

namespace ChromeMcpAgent

/-- Model of an untyped JavaScript value as delivered in a JSON-shaped CDP
payload.  Numbers are modeled as integers (the summarizer logic never does
arithmetic on them, it only stringifies and compares them), objects as
association lists in declared key order, and `undefined` is a distinguished
value so that absent properties and nullish coalescing can be modeled
faithfully. -/
inductive JSVal where
  | undefined
  | null
  | bool (b : Bool)
  | num (n : Int)
  | str (s : String)
  | arr (elems : List JSVal)
  | obj (fields : List (String × JSVal))
deriving Repr

/-- First-found association-list lookup, modeling JavaScript property access on
a plain object (the earlier entry wins for duplicate keys). -/
def jlookup (fields : List (String × JSVal)) (k : String) : Option JSVal :=
  match fields with
  | [] => none
  | (k2, v) :: rest => if k2 = k then some v else jlookup rest k

/-- Property read `v[k]`: missing properties read as `undefined`; arrays expose
`length`; primitives expose none of the properties this code reads. -/
def getProp (v : JSVal) (k : String) : JSVal :=
  match v with
  | .obj fields => (jlookup fields k).getD .undefined
  | .arr _ => .undefined
  | _ => .undefined

/-- The `in` operator on the object shapes this code interrogates (it is only
ever applied after a truthy-object guard; the keys read here are never array
indices or `length`). -/
def hasProp (v : JSVal) (k : String) : Bool :=
  match v with
  | .obj fields => (jlookup fields k).isSome
  | _ => false

/-- JavaScript truthiness of a modeled value. -/
def truthy : JSVal → Bool
  | .undefined => false
  | .null => false
  | .bool b => b
  | .num n => n != 0
  | .str s => s != ""
  | .arr _ => true
  | .obj _ => true

/-- Whether `typeof v === "object"` holds (`null`, arrays and plain objects). -/
def isObjectType : JSVal → Bool
  | .null => true
  | .arr _ => true
  | .obj _ => true
  | _ => false

/-- Whether a value is `null` or `undefined` (the values skipped by `??`). -/
def nullish : JSVal → Bool
  | .undefined => true
  | .null => true
  | _ => false

/-- The nullish-coalescing operator `a ?? b`. -/
def coalesce (a b : JSVal) : JSVal :=
  if nullish a then b else a

/-- The guard `!node || typeof node !== "object"` (negated): a truthy value of
object type, i.e. a plain object or an array. -/
def objGuard (v : JSVal) : Bool :=
  truthy v && isObjectType v

/-- Lower-casing (`String.prototype.toLowerCase`), modeled character-wise. -/
def toLowerStr (s : String) : String :=
  String.mk (s.data.map Char.toLower)

/-- The whitespace class removed by `String.prototype.trim` (the ASCII
whitespace characters plus no-break space; the summarizer only ever compares
the trimmed result against the empty string and truncates it). -/
def jsWhitespace (c : Char) : Bool :=
  c == ' ' || c == '\t' || c == '\n' || c == '\r' || c == '\x0b' || c == '\x0c' || c == '\u00A0'

/-- The `trim()` of a string: strip leading and trailing whitespace. -/
def jsTrim (s : String) : String :=
  String.mk (((s.data.dropWhile jsWhitespace).reverse.dropWhile jsWhitespace).reverse)

/-- The `slice(0, n)` of a string, modeled as its first `n` characters. -/
def takeChars (n : Nat) (s : String) : String :=
  String.mk (s.data.take n)

mutual

/-- JavaScript `String(v)` on the modeled values. -/
def jsToString : JSVal → String
  | .undefined => "undefined"
  | .null => "null"
  | .bool true => "true"
  | .bool false => "false"
  | .num n => toString n
  | .str s => s
  | .arr xs => String.intercalate "," (jsToStringElems xs)
  | .obj _ => "[object Object]"

/-- Array elements under `Array.prototype.toString`: `null` and `undefined`
render as the empty string, everything else recursively stringifies. -/
def jsToStringElems : List JSVal → List String
  | [] => []
  | x :: rest =>
    (match x with
     | .undefined => ""
     | .null => ""
     | .bool b => jsToString (.bool b)
     | .num n => jsToString (.num n)
     | .str s => jsToString (.str s)
     | .arr xs => jsToString (.arr xs)
     | .obj fs => jsToString (.obj fs)) :: jsToStringElems rest

end

/-- Flat alternating key/value attribute list (DOM protocol form): pairs are
consumed two at a time, nullish entries coalesce to the empty string, and
entries with an empty key are skipped. -/
def formatAttributes : List JSVal → List String
  | [] => []
  | k :: rest =>
    let key := jsToString (coalesce k (.str ""))
    let value := jsToString (coalesce (match rest with | [] => JSVal.undefined | v :: _ => v) (.str ""))
    let tail := match rest with | [] => ([] : List String) | _ :: r2 => formatAttributes r2
    if key = "" then tail else (key ++ "=\"" ++ value ++ "\"") :: tail

/-- Mapping-form attributes: `Object.entries`, in declared key order (the open
question of §9 resolved as declared order, which is what the association-list
model enumerates). Non-objects and falsy values produce no attributes. -/
def formatAttributeObject (attributes : JSVal) : List String :=
  if truthy attributes && isObjectType attributes then
    match attributes with
    | .obj fields => fields.map (fun kv => kv.1 ++ "=\"" ++ jsToString kv.2 ++ "\"")
    | _ => []
  else []

/-- The node-name resolution chain
`record.nodeName ?? record.localName ?? record.name ?? "?"`. -/
def resolveNodeName (node : JSVal) : JSVal :=
  coalesce (getProp node "nodeName")
    (coalesce (getProp node "localName")
      (coalesce (getProp node "name") (.str "?")))

/-- Two spaces of indentation per depth level (`"  ".repeat(depth)`). -/
def indentStr (depth : Nat) : String :=
  String.mk (List.replicate (2 * depth) ' ')

/-- The children list of a node: `record.children` when it is an array,
otherwise the empty list. -/
def childrenOf (node : JSVal) : List JSVal :=
  match getProp node "children" with
  | .arr cs => cs
  | _ => []

/-- Attribute rendering dispatch: the flat array form when `record.attributes`
is an array, the mapping form otherwise. -/
def attrsOf (node : JSVal) : List String :=
  match getProp node "attributes" with
  | .arr xs => formatAttributes xs
  | other => formatAttributeObject other

/-- The attribute suffix of an element line (leading space when non-empty). -/
def attrString (node : JSVal) : String :=
  let attrs := attrsOf node
  if attrs.length > 0 then " " ++ String.intercalate " " attrs else ""

/-- The error message of the TypeError raised when a non-string node name
reaches `.toLowerCase()`. -/
def toLowerCaseTypeError : String :=
  "TypeError: nodeName.toLowerCase is not a function"

/-- The synthetic truncation marker line. -/
def omittedLine (depth k : Nat) : String :=
  indentStr depth ++ "  ... (" ++ toString k ++ " more children)"

mutual

/-- Shallow embedding of `appendNodeSummary` from the agent source.  The JS
function pushes onto a shared `lines` array; since it only ever appends, it is
modeled as returning the lines this call pushes, in push order.  The TypeError
raised when a non-string node name reaches `.toLowerCase()` is modeled as
`Except.error`. -/
def appendNodeSummary (node : JSVal) (depth maxDepth maxChildren : Nat) :
    Except String (List String) :=
  if hg : objGuard node then
    match resolveNodeName node with
    | .str s =>
      if s = "#text" then
        let value := jsTrim (jsToString (coalesce (getProp node "nodeValue") (.str "")))
        if value = "" then .ok []
        else .ok [indentStr depth ++ "#text " ++ takeChars 60 value]
      else
        let line := indentStr depth ++ "<" ++ toLowerStr s ++ attrString node ++ ">"
        if depth ≥ maxDepth then
          let childCount := (childrenOf node).length
          if childCount > 0 then .ok [line, omittedLine depth childCount]
          else .ok [line]
        else
          let children := childrenOf node
          match summarizeChildren children maxChildren (depth + 1) maxDepth maxChildren with
          | .error e => .error e
          | .ok rest =>
            if children.length > maxChildren then
              .ok (line :: rest ++ [omittedLine depth (children.length - maxChildren)])
            else
              .ok (line :: rest)
    | _ => .error toLowerCaseTypeError
  else .ok []
termination_by sizeOf node
decreasing_by
  cases node with
  | obj fields =>
    clear hg
    simp only [childrenOf, getProp]
    have hb : ∀ (v : JSVal), jlookup fields "children" = some v → sizeOf v < 1 + sizeOf fields := by
      induction fields with
      | nil => intro v h; simp [jlookup] at h
      | cons kv rest ih =>
        intro v h
        rw [jlookup] at h
        split at h
        · cases h
          cases kv with
          | mk a b => simp; omega
        · have := ih v h
          cases kv with
          | mk a b => simp; omega
    have hone : (1 : Nat) ≤ sizeOf fields := by
      cases fields with
      | nil => simp
      | cons a t => simp; omega
    cases hl : jlookup fields "children" with
    | none => simp; omega
    | some v =>
      have hv := hb v hl
      simp only [Option.getD]
      cases v with
      | arr cs => simp at hv ⊢; omega
      | undefined => simp; omega
      | null => simp; omega
      | bool b => simp; omega
      | num n => simp; omega
      | str s => simp; omega
      | obj fs => simp; omega
  | arr xs =>
    simp only [childrenOf, getProp]
    have hone : (1 : Nat) ≤ sizeOf xs := by
      cases xs with
      | nil => simp
      | cons a t => simp; omega
    simp; omega
  | undefined => simp [objGuard, truthy, isObjectType] at hg
  | null => simp [objGuard, truthy, isObjectType] at hg
  | bool b => simp [objGuard, truthy, isObjectType] at hg
  | num n => simp [objGuard, truthy, isObjectType] at hg
  | str s => simp [objGuard, truthy, isObjectType] at hg

/-- The `for` loop over `children.slice(0, maxChildren)`: processes the first
`budget` children in order, concatenating their pushed lines; a throw aborts
the whole traversal. -/
def summarizeChildren (cs : List JSVal) (budget : Nat) (depth maxDepth maxChildren : Nat) :
    Except String (List String) :=
  match budget, cs with
  | 0, _ => .ok []
  | _ + 1, [] => .ok []
  | b + 1, c :: rest =>
    match appendNodeSummary c depth maxDepth maxChildren with
    | .error e => .error e
    | .ok l1 =>
      match summarizeChildren rest b depth maxDepth maxChildren with
      | .error e => .error e
      | .ok l2 => .ok (l1 ++ l2)
termination_by sizeOf cs
decreasing_by
  all_goals simp
  all_goals omega

end

/-- The depth-limit behavior of `appendNodeSummary`, written without any
recursion: guard and node-name resolution as usual, but an element node only
emits its own line plus, when it has any children at all, one synthetic line
carrying the full child count.  Note it depends on neither `maxDepth` nor
`maxChildren`. -/
def truncatedSummary (node : JSVal) (depth : Nat) : Except String (List String) :=
  if objGuard node then
    match resolveNodeName node with
    | .str s =>
      if s = "#text" then
        let value := jsTrim (jsToString (coalesce (getProp node "nodeValue") (.str "")))
        if value = "" then .ok []
        else .ok [indentStr depth ++ "#text " ++ takeChars 60 value]
      else
        let line := indentStr depth ++ "<" ++ toLowerStr s ++ attrString node ++ ">"
        if (childrenOf node).length > 0 then .ok [line, omittedLine depth (childrenOf node).length]
        else .ok [line]
    | _ => .error toLowerCaseTypeError
  else .ok []

/-- Rendering of a full child list (no budget): every child contributes its
summary, in order. -/
def renderChildren (cs : List JSVal) (depth maxDepth maxChildren : Nat) :
    Except String (List String) :=
  summarizeChildren cs cs.length depth maxDepth maxChildren

/-- Root resolution: a `root` key wins unconditionally if present, then a
`result` object carrying `root`, then the payload itself. -/
def resolveRootNode (payload : JSVal) : JSVal :=
  if objGuard payload then
    if hasProp payload "root" then getProp payload "root"
    else if hasProp payload "result" then
      let result := getProp payload "result"
      if objGuard result && hasProp result "root" then getProp result "root"
      else payload
    else payload
  else .undefined

/-- Shallow embedding of `stringifyDomPayload`: `undefined` results are modeled
as `none`; the summarizer's possible TypeError propagates as `Except.error`
(the caller catches it). -/
def stringifyDomPayload (payload : JSVal) : Except String (Option String) :=
  if objGuard payload then
    let root := resolveRootNode payload
    if truthy root then
      match appendNodeSummary root 0 3 8 with
      | .error e => .error e
      | .ok lines => .ok (some (String.intercalate "\n" lines))
    else .ok none
  else .ok none

/-- The placeholder outline returned when capture fails. -/
def outlineUnavailable : String :=
  "<dom outline unavailable>"

/-- The `for` loop of `captureDomOutline` over the extracted payloads: the
first truthy outline wins; a throw escapes to the surrounding catch, which
yields the placeholder. -/
def captureLoop : List JSVal → String
  | [] => outlineUnavailable
  | p :: rest =>
    match stringifyDomPayload p with
    | .error _ => outlineUnavailable
    | .ok none => captureLoop rest
    | .ok (some s) => if s = "" then captureLoop rest else s

/-- Shallow embedding of `captureDomOutline`.  The `DOM.getDocument` roundtrip
plus `extractJsonPayload` is modeled by its outcome: either a transport/fetch
error or the list of JSON payloads extracted from the tool result.  The `try`
block recovers every failure into the placeholder string. -/
def captureDomOutline (fetched : Except String (List JSVal)) : String :=
  match fetched with
  | .error _ => outlineUnavailable
  | .ok payloads => captureLoop payloads

/-- The validated breakpoint plan (the inferred type of `BreakpointPlanSchema`):
`consoleNotes` is defaulted, all other optional fields stay optional. -/
structure BreakpointPlan where
  targetType : String
  selector : Option String
  eventType : Option String
  functionName : Option String
  explanation : Option String
  consoleNotes : List String
deriving Repr, DecidableEq

/-- The `z.enum(["dom-event", "function-call"])` field parser. -/
def parseTargetType (v : JSVal) : Option String :=
  match v with
  | .str s => if s = "dom-event" || s = "function-call" then some s else none
  | _ => none

/-- The `z.string().min(1).optional()` field parser: absent is fine, a present
value must be a non-empty string. -/
def parseOptMin1 (v : JSVal) : Option (Option String) :=
  match v with
  | .undefined => some none
  | .str s => if s = "" then none else some (some s)
  | _ => none

/-- The `z.string().optional()` field parser. -/
def parseOptString (v : JSVal) : Option (Option String) :=
  match v with
  | .undefined => some none
  | .str s => some (some s)
  | _ => none

/-- Element-wise parse of `z.array(z.string())`. -/
def parseStringList : List JSVal → Option (List String)
  | [] => some []
  | x :: rest =>
    match x with
    | .str s => (parseStringList rest).map (fun l => s :: l)
    | _ => none

/-- The `z.array(z.string()).default([])` field parser. -/
def parseNotes (v : JSVal) : Option (List String) :=
  match v with
  | .undefined => some []
  | .arr xs => parseStringList xs
  | _ => none

/-- Shallow embedding of `BreakpointPlanSchema.parse`: the zod base object
shape (rejecting non-objects, arrays and `null`, treating explicitly-undefined
fields as absent and stripping unknown keys), followed by the `superRefine`
cross-field checks (`selector` required for `dom-event`, `functionName` for
`function-call`; both are checked by JS truthiness, and a present empty string
is already rejected by `min(1)`). -/
def validatePlan (raw : JSVal) : Option BreakpointPlan :=
  match raw with
  | .obj _ =>
    match parseTargetType (getProp raw "targetType"), parseOptMin1 (getProp raw "selector"),
        parseOptMin1 (getProp raw "eventType"), parseOptMin1 (getProp raw "functionName"),
        parseOptString (getProp raw "explanation"), parseNotes (getProp raw "consoleNotes") with
    | some tt, some sel, some et, some fn, some ex, some notes =>
      if tt = "dom-event" && sel.isNone then none
      else if tt = "function-call" && fn.isNone then none
      else some { targetType := tt, selector := sel, eventType := et, functionName := fn,
                  explanation := ex, consoleNotes := notes }
    | _, _, _, _, _, _ => none
  | _ => none

/-- A remotely exposed MCP tool (name plus optional description). -/
structure RemoteTool where
  name : String
  description : Option String
deriving Repr, DecidableEq

/-- The fixed candidate names for the CDP bridge tool. -/
def DEFAULT_CDP_TOOL_CANDIDATES : List String :=
  ["cdp", "call_cdp", "chromium-cdp", "chrome-devtools:call_cdp", "call-cdp-method",
   "devtools-cdp", "cdp.call", "cdp-method"]

/-- Whether a character list starts with the given pattern. -/
def listStartsWith : List Char → List Char → Bool
  | [], _ => true
  | _ :: _, [] => false
  | p :: ps, c :: cs => p == c && listStartsWith ps cs

/-- Whether a character list contains the pattern as a contiguous segment. -/
def listHasSeg (pat : List Char) : List Char → Bool
  | [] => pat.isEmpty
  | c :: cs => listStartsWith pat (c :: cs) || listHasSeg pat cs

/-- JavaScript `s.includes(pat)`. -/
def strIncludes (s pat : String) : Bool :=
  listHasSeg pat.data s.data

/-- The per-tool match test of the discovery loop: the lower-cased name is one
of the fixed candidates, or the lower-cased name contains "cdp", or the
lower-cased description contains "cdp". -/
def toolMatches (t : RemoteTool) : Bool :=
  ((DEFAULT_CDP_TOOL_CANDIDATES.map toLowerStr).contains (toLowerStr t.name)
      || strIncludes (toLowerStr t.name) "cdp")
    || strIncludes (toLowerStr (t.description.getD "")) "cdp"

/-- The discovery loop over the fetched tool list: first matching tool wins,
returning its original (non-lower-cased) name. -/
def scanTools : List RemoteTool → Option String
  | [] => none
  | t :: rest => if toolMatches t then some t.name else scanTools rest

/-- Shallow embedding of `resolveCdpToolName`.  The `listTools` roundtrip is
modeled by its outcome; the surrounding `try` turns a listing failure into
`undefined`.  The explicit override is tested for JS truthiness, so an
empty-string override falls through to discovery. -/
def resolveCdpToolName (explicitOverride : Option String)
    (fetched : Except String (List RemoteTool)) : Option String :=
  let fallback :=
    match fetched with
    | .error _ => none
    | .ok tools => scanTools tools
  match explicitOverride with
  | some s => if s = "" then fallback else some s
  | none => fallback

/-- The interpolated parameters of the event-listener instrumentation
template (its fixed JS text is a function of exactly these three strings). -/
structure EventFragment where
  selector : String
  eventType : String
  label : String
deriving Repr, DecidableEq

/-- Shallow embedding of `buildEventInstrumentation`: the generated fragment is
modeled by the values interpolated into the fixed template (`plan.selector ??
""`, `plan.eventType ?? "click"`, and the configured goal as label); its
runtime behavior is `runEventFragment` below. -/
def buildEventInstrumentation (plan : BreakpointPlan) (goal : String) : EventFragment :=
  { selector := plan.selector.getD "", eventType := plan.eventType.getD "click", label := goal }

/-- The interpolated parameters of the function-wrapping instrumentation
template: `JSON.stringify(functionName.split('.'))` and the goal label. -/
structure FunctionFragment where
  path : List String
  label : String
deriving Repr, DecidableEq

/-- Shallow embedding of `buildFunctionInstrumentation`: the path baked into
the fragment is `(plan.functionName ?? "").split(".")`. -/
def buildFunctionInstrumentation (plan : BreakpointPlan) (goal : String) : FunctionFragment :=
  { path := (plan.functionName.getD "").splitOn ".", label := goal }

/-- Outcome of `document.querySelector` for one selector string in the current
document: it returns an element, or returns null (modeled by the selector
being absent from the map below), or throws a SyntaxError DOMException because
the selector string is not syntactically valid. -/
inductive QueryOutcome where
  | found
  | syntaxError
deriving Repr, DecidableEq

/-- The remote page state the event fragment manipulates: the
`window.__breakpointGuide.handlers` registry keys, the listener attachments
performed so far (in order), and the behavior of `document.querySelector` per
selector string (a selector absent from the map returns null). -/
structure PageState where
  handlers : List String
  listeners : List (String × String)
  dom : List (String × QueryOutcome)
deriving Repr, DecidableEq

/-- First-found lookup of a selector's query outcome in the document. -/
def domLookup (dom : List (String × QueryOutcome)) (selector : String) : Option QueryOutcome :=
  match dom with
  | [] => none
  | (s, o) :: rest => if s = selector then some o else domLookup rest selector

/-- The error thrown by `document.querySelector` on a syntactically invalid
selector string. -/
def querySelectorSyntaxError : String :=
  "SyntaxError: the provided selector string is invalid"

/-- The registry key `selector + "::" + eventType`. -/
def eventRegistryKey (selector eventType : String) : String :=
  selector ++ "::" ++ eventType

/-- Runtime behavior of the generated event-listener fragment, translated from
the template in `buildEventInstrumentation`: a registry hit reports already
registered before the DOM is consulted; otherwise `document.querySelector`
runs, and on a syntactically invalid selector its SyntaxError propagates out
of the fragment (nothing catches it); a null result reports selector not
found; otherwise the handler is recorded under the key, one listener is
attached, and attachment is reported. -/
def runEventFragment (frag : EventFragment) (st : PageState) :
    Except String (String × PageState) :=
  if st.handlers.contains (eventRegistryKey frag.selector frag.eventType) then
    .ok ("[BreakpointGuide] already registered", st)
  else
    match domLookup st.dom frag.selector with
    | some .syntaxError => .error querySelectorSyntaxError
    | none => .ok ("[BreakpointGuide] selector not found", st)
    | some .found =>
      .ok ("[BreakpointGuide] instrumentation attached",
        { st with
            handlers := st.handlers ++ [eventRegistryKey frag.selector frag.eventType],
            listeners := st.listeners ++ [(frag.selector, frag.eventType)] })

/-- A function value in the remote page: either an original page function
(interpreted by an environment, see `callFn`) or a BreakpointGuide wrapper
carrying the `__breakpointGuideWrapped` marker and the original. -/
inductive FuncVal where
  | base (id : Nat)
  | wrap (orig : FuncVal)
deriving Repr, DecidableEq

/-- A runtime value in the remote page's global object graph: `undefined`, a
non-object primitive of the given truthiness, a function, or a plain object
(modeled as a tree; the fragment only reads and updates along one path). -/
inductive RVal where
  | undefinedV
  | prim (t : Bool)
  | fn (f : FuncVal)
  | objv (fields : List (String × RVal))
deriving Repr

/-- Association lookup on a remote object, first entry wins. -/
def rlookup (fields : List (String × RVal)) (k : String) : Option RVal :=
  match fields with
  | [] => none
  | (k2, v) :: rest => if k2 = k then some v else rlookup rest k

/-- JavaScript truthiness of a remote value. -/
def rTruthy : RVal → Bool
  | .undefinedV => false
  | .prim t => t
  | .fn _ => true
  | .objv _ => true

/-- Whether the `in` operator may be applied (objects and functions). -/
def rIsObject : RVal → Bool
  | .objv _ => true
  | .fn _ => true
  | _ => false

/-- Property read on a remote value; the modeled functions and primitives
carry none of the walked properties. -/
def rGetProp (v : RVal) (k : String) : RVal :=
  match v with
  | .objv fields => (rlookup fields k).getD .undefinedV
  | _ => .undefinedV

/-- The `in` test on a remote value. -/
def rHasProp (v : RVal) (k : String) : Bool :=
  match v with
  | .objv fields => (rlookup fields k).isSome
  | _ => false

/-- The TypeError thrown when `in` is applied to a truthy non-object. -/
def inOpTypeError : String :=
  "TypeError: cannot use the in operator on a non-object"

/-- Outcome of walking the intermediate path segments: either an early return
reporting a missing segment, or the reached context. -/
inductive WalkOutcome where
  | missingSegment
  | ctx (v : RVal)
deriving Repr

/-- The fragment's walk over all but the last path segment, translated from the
generated loop: a falsy context or an absent property reports a missing
segment; evaluating `part in context` on a truthy non-object throws. -/
def walkPath (segs : List String) (context : RVal) : Except String WalkOutcome :=
  match segs with
  | [] => .ok (.ctx context)
  | part :: rest =>
    if rTruthy context then
      if rIsObject context then
        if rHasProp context part then walkPath rest (rGetProp context part)
        else .ok .missingSegment
      else .error inOpTypeError
    else .ok .missingSegment

/-- Replace the value of a key (first occurrence, preserving position, as a JS
property write does) or append it. -/
def rSetField : List (String × RVal) → String → RVal → List (String × RVal)
  | [], k, newV => [(k, newV)]
  | (k2, v2) :: rest, k, newV =>
    if k2 = k then (k2, newV) :: rest else (k2, v2) :: rSetField rest k newV

/-- Property write on a remote value; on a non-object it is the sloppy-mode
silent no-op (unreachable in the fragment, which only writes where it found a
function). -/
def rSetProp (v : RVal) (k : String) (newV : RVal) : RVal :=
  match v with
  | .objv fields => .objv (rSetField fields k newV)
  | other => other

/-- Update of the global object graph at the end of a path, modeling the
in-place `context[methodName] = wrapped` write on the walked context. -/
def setAtPath (g : RVal) (segs : List String) (newV : RVal) : RVal :=
  match segs with
  | [] => g
  | [k] => rSetProp g k newV
  | k :: rest => rSetProp g k (setAtPath (rGetProp g k) rest newV)

/-- The `__breakpointGuideWrapped` marker test. -/
def isWrappedFn : FuncVal → Bool
  | .base _ => false
  | .wrap _ => true

/-- Runtime behavior of the generated function-wrapping fragment, translated
from the template in `buildFunctionInstrumentation`: empty path reports invalid
path; the walk may report a missing segment or throw; a non-function target
reports not a function; an already-marked function reports already wrapped;
otherwise the function is replaced in place by a marked wrapper holding the
original. -/
def runFunctionFragment (frag : FunctionFragment) (window : RVal) :
    Except String (String × RVal) :=
  if frag.path.isEmpty then .ok ("[BreakpointGuide] invalid path", window)
  else
    match walkPath frag.path.dropLast window with
    | .error e => .error e
    | .ok .missingSegment => .ok ("[BreakpointGuide] missing segment", window)
    | .ok (.ctx context) =>
      match (if rTruthy context then rGetProp context (frag.path.getLastD "") else .undefinedV) with
      | .fn f =>
        if isWrappedFn f then .ok ("[BreakpointGuide] already wrapped", window)
        else .ok ("[BreakpointGuide] wrapped function", setAtPath window frag.path (.fn (.wrap f)))
      | _ => .ok ("[BreakpointGuide] not a function", window)

/-- Calling a modeled function: base page functions are interpreted by an
environment from function id and arguments to a result; the wrapper body
(structured logging inside try/catch, a `debugger` suspension, then `return
original.apply(this, args)`) forwards the call unchanged.  The second
component counts how many times an original page function body runs. -/
def callFn (env : Nat → List Int → Int) : FuncVal → List Int → Int × Nat
  | .base i, args => (env i args, 1)
  | .wrap f, args => callFn env f args

/-- The eight status strings named by the specification. -/
def specStatusStrings : List String :=
  ["already registered", "selector not found", "instrumentation attached", "invalid path",
   "missing path segment", "not a function", "already wrapped", "wrapped function"]

/-- The statuses the event fragment can actually return. -/
def eventFragmentStatuses : List String :=
  ["[BreakpointGuide] already registered", "[BreakpointGuide] selector not found",
   "[BreakpointGuide] instrumentation attached"]

/-- The statuses the function fragment can actually return. -/
def functionFragmentStatuses : List String :=
  ["[BreakpointGuide] invalid path", "[BreakpointGuide] missing segment",
   "[BreakpointGuide] not a function", "[BreakpointGuide] already wrapped",
   "[BreakpointGuide] wrapped function"]

/-- Classification of a summarizer output line emitted while rendering at
depth at least `dLow` with limit `maxD`: it is an element or text line at
some nesting level between `dLow` and `maxD`, or a synthetic omission marker
belonging to a node at such a level. -/
def SummaryLineShape (dLow maxD : Nat) (l : String) : Prop :=
  (∃ d2 r, dLow ≤ d2 ∧ d2 ≤ maxD ∧ l = indentStr d2 ++ r ∧
    ((∃ t, r = "<" ++ t) ∨ (∃ t, r = "#text " ++ t)))
  ∨ (∃ d2 k, dLow ≤ d2 ∧ d2 ≤ maxD ∧ l = omittedLine d2 k)

deriving instance DecidableEq for Except

theorem append_guard_false {node : JSVal} (h : objGuard node = false) (d mD mC : Nat) :
    appendNodeSummary node d mD mC = .ok [] := by
  rw [appendNodeSummary]
  simp [h]

theorem append_text {node : JSVal} (hg : objGuard node = true)
    (hn : resolveNodeName node = .str "#text") (d mD mC : Nat) :
    appendNodeSummary node d mD mC =
      (if jsTrim (jsToString (coalesce (getProp node "nodeValue") (.str ""))) = "" then .ok []
       else .ok [indentStr d ++ "#text " ++
         takeChars 60 (jsTrim (jsToString (coalesce (getProp node "nodeValue") (.str ""))))]) := by
  rw [appendNodeSummary]
  simp [hg, hn]

theorem append_at_limit (node : JSVal) (d mD mC : Nat) (hd : mD ≤ d) :
    appendNodeSummary node d mD mC = truncatedSummary node d := by
  rw [appendNodeSummary, truncatedSummary]
  by_cases hg : objGuard node = true
  · simp only [hg, dite_true, if_true]
    cases hn : resolveNodeName node with
    | str s =>
      by_cases ht : s = "#text"
      · simp [ht]
      · simp [ht, hd, Nat.not_lt.mpr hd]
    | undefined => rfl
    | null => rfl
    | bool b => rfl
    | num n => rfl
    | arr xs => rfl
    | obj fs => rfl
  · simp [hg]

theorem append_element_below {node : JSVal} {tag : String} (hg : objGuard node = true)
    (hn : resolveNodeName node = .str tag) (ht : tag ≠ "#text") {d mD : Nat} (mC : Nat)
    (hd : d < mD) :
    appendNodeSummary node d mD mC =
      (summarizeChildren (childrenOf node) mC (d + 1) mD mC).map
        (fun rest => (indentStr d ++ "<" ++ toLowerStr tag ++ attrString node ++ ">") :: rest
          ++ (if (childrenOf node).length > mC then
                [omittedLine d ((childrenOf node).length - mC)]
              else [])) := by
  rw [appendNodeSummary]
  cases hch : summarizeChildren (childrenOf node) mC (d + 1) mD mC with
  | error e => simp [hg, hn, ht, Nat.not_le.mpr hd, hch, Except.map]
  | ok rest =>
    by_cases hova : (childrenOf node).length > mC
    · simp [hg, hn, ht, Nat.not_le.mpr hd, hch, Except.map, hova]
    · simp [hg, hn, ht, Nat.not_le.mpr hd, hch, Except.map, hova]

/-- C1: the specification requires `stringifyDomPayload` / `appendNodeSummary`
never to raise on any payload shape, but the code casts the resolved node name
with `as string` and calls `.toLowerCase()` on it, so a payload whose
`nodeName` is the number 42 makes the summarizer throw a TypeError (modeled as
`Except.error`).  This theorem evaluates the embedded code at that failing
input. -/
theorem c1_summarizer_raises_on_nonstring_nodeName :
    stringifyDomPayload (.obj [("nodeName", .num 42)]) = .error toLowerCaseTypeError := by
  simp [stringifyDomPayload, resolveRootNode, appendNodeSummary, resolveNodeName, getProp, jlookup,
    objGuard, truthy, isObjectType, hasProp, coalesce, nullish]

/-- C10 counterexample: the claim says that when a present `root` key holds a
value that is not an object, summarization returns absent; but for the payload
`{root: 42}` the root is truthy and non-object, the recursion emits no lines,
and `stringifyDomPayload` returns the empty string rather than absent. -/
theorem c10_counterexample :
    stringifyDomPayload (.obj [("root", .num 42)]) = .ok (some "")
      ∧ stringifyDomPayload (.obj [("root", .num 42)]) ≠ .ok none := by
  have h1 : stringifyDomPayload (.obj [("root", .num 42)]) = .ok (some "") := by
    simp [stringifyDomPayload, resolveRootNode, appendNodeSummary, resolveNodeName, getProp,
      jlookup, objGuard, truthy, isObjectType, hasProp, coalesce, nullish]
    rfl
  refine ⟨h1, ?_⟩
  rw [h1]
  simp

/-- C10 (amended): a present `root` key is always used as the root and the
fallback never applies past it; when its value is falsy (`null`, `undefined`,
`false`, `0`, or the empty string) summarization returns absent; when it is
truthy the summary is computed from exactly that value, and in particular a
truthy non-object root yields the empty outline string (not absent).  The
fallback to the payload itself applies only when neither `root` nor a `result`
object carrying `root` is present. -/
theorem c10_root_resolution :
    (∀ fields v, jlookup fields "root" = some v →
      resolveRootNode (.obj fields) = v
      ∧ (truthy v = false → stringifyDomPayload (.obj fields) = .ok none)
      ∧ (truthy v = true →
          stringifyDomPayload (.obj fields) =
            (appendNodeSummary v 0 3 8).map (fun lines => some (String.intercalate "\n" lines)))
      ∧ (truthy v = true → objGuard v = false →
          stringifyDomPayload (.obj fields) = .ok (some "")))
    ∧ (∀ fields, jlookup fields "root" = none →
        (∀ rv, jlookup fields "result" = some rv → (objGuard rv && hasProp rv "root") = false) →
        resolveRootNode (.obj fields) = .obj fields) := by
  constructor
  · intro fields v hv
    have hpg : objGuard (JSVal.obj fields) = true := rfl
    have hroot : resolveRootNode (.obj fields) = v := by
      have hh : hasProp (JSVal.obj fields) "root" = true := by simp [hasProp, hv]
      simp [resolveRootNode, hpg, hh, getProp, hv]
    refine ⟨hroot, ?_, ?_, ?_⟩
    · intro hf
      simp [stringifyDomPayload, hpg, hroot, hf]
    · intro htr
      simp only [stringifyDomPayload, hpg, if_true, hroot, htr]
      cases happ : appendNodeSummary v 0 3 8 with
      | error e => simp [Except.map]
      | ok lines => simp [Except.map]
    · intro htr hng
      simp only [stringifyDomPayload, hpg, if_true, hroot, htr]
      rw [append_guard_false hng]
      simp
      rfl
  · intro fields hnone hres
    have hpg : objGuard (JSVal.obj fields) = true := rfl
    have hhr : hasProp (JSVal.obj fields) "root" = false := by simp [hasProp, hnone]
    cases hr : jlookup fields "result" with
    | none =>
      have hhres : hasProp (JSVal.obj fields) "result" = false := by simp [hasProp, hr]
      simp [resolveRootNode, hpg, hhr, hhres]
    | some rv =>
      have hhres : hasProp (JSVal.obj fields) "result" = true := by simp [hasProp, hr]
      have hgp : getProp (JSVal.obj fields) "result" = rv := by simp [getProp, hr]
      simp [resolveRootNode, hpg, hhr, hhres, hgp, hres rv hr]

/-- C10 witness: a payload whose `root` key holds `null` (falsy) summarizes to
absent. -/
theorem c10_witness :
    stringifyDomPayload (.obj [("root", JSVal.null)]) = .ok none :=
  ((c10_root_resolution.1 [("root", JSVal.null)] JSVal.null rfl).2.1) rfl

theorem captureLoop_cons (p : JSVal) (rest : List JSVal) :
    captureLoop (p :: rest) =
      (match stringifyDomPayload p with
       | .error _ => outlineUnavailable
       | .ok none => captureLoop rest
       | .ok (some s) => if s = "" then captureLoop rest else s) := by
  rw [captureLoop]

theorem captureLoop_all_empty (ps : List JSVal)
    (h : ∀ p ∈ ps, ∀ s, ¬(stringifyDomPayload p = .ok (some s) ∧ s ≠ "")) :
    captureLoop ps = outlineUnavailable := by
  induction ps with
  | nil => rfl
  | cons p rest ih =>
    have ihr := ih (fun q hq s => h q (List.mem_cons_of_mem p hq) s)
    cases hsp : stringifyDomPayload p with
    | error e => simp [captureLoop_cons, hsp]
    | ok o =>
      cases o with
      | none => simp [captureLoop_cons, hsp, ihr]
      | some s =>
        have hs : s = "" := by
          by_contra hne
          exact h p (List.mem_cons_self p rest) s ⟨hsp, hne⟩
        simp [captureLoop_cons, hsp, hs, ihr]

theorem captureLoop_result (ps : List JSVal) :
    captureLoop ps = outlineUnavailable
    ∨ ∃ p ∈ ps, ∃ s, stringifyDomPayload p = .ok (some s) ∧ s ≠ "" ∧ captureLoop ps = s := by
  induction ps with
  | nil => exact Or.inl rfl
  | cons p rest ih =>
    cases hsp : stringifyDomPayload p with
    | error e =>
      refine Or.inl ?_
      simp [captureLoop_cons, hsp]
    | ok o =>
      cases o with
      | none =>
        have hstep : captureLoop (p :: rest) = captureLoop rest := by
          simp [captureLoop_cons, hsp]
        rcases ih with h | ⟨q, hq, s, hqs, hne, hres⟩
        · exact Or.inl (hstep.trans h)
        · exact Or.inr ⟨q, List.mem_cons_of_mem p hq, s, hqs, hne, hstep.trans hres⟩
      | some s =>
        by_cases hs : s = ""
        · have hstep : captureLoop (p :: rest) = captureLoop rest := by
            simp [captureLoop_cons, hsp, hs]
          rcases ih with h | ⟨q, hq, s2, hqs, hne, hres⟩
          · exact Or.inl (hstep.trans h)
          · exact Or.inr ⟨q, List.mem_cons_of_mem p hq, s2, hqs, hne, hstep.trans hres⟩
        · have hstep : captureLoop (p :: rest) = s := by
            simp [captureLoop_cons, hsp, hs]
          exact Or.inr ⟨p, List.mem_cons_self p rest, s, hsp, hs, hstep⟩

/-- C9: outline capture never aborts the run: a failed document fetch yields
the placeholder string; when no payload yields a non-empty outline (including
when the summarizer throws) the placeholder is returned; and in general the
result is either the placeholder or the first non-empty outline of some
payload. -/
theorem c9_outline_capture_nonfatal :
    (∀ e, captureDomOutline (.error e) = outlineUnavailable)
    ∧ (∀ ps : List JSVal,
        (∀ p ∈ ps, ∀ s, ¬(stringifyDomPayload p = .ok (some s) ∧ s ≠ "")) →
        captureDomOutline (.ok ps) = outlineUnavailable)
    ∧ (∀ ps : List JSVal,
        captureDomOutline (.ok ps) = outlineUnavailable
        ∨ ∃ p ∈ ps, ∃ s, stringifyDomPayload p = .ok (some s) ∧ s ≠ ""
            ∧ captureDomOutline (.ok ps) = s) :=
  ⟨fun _ => rfl, fun ps h => captureLoop_all_empty ps h, fun ps => captureLoop_result ps⟩

/-- C9 witness: a single non-object payload yields no outline, so capture
returns the placeholder. -/
theorem c9_witness :
    captureDomOutline (.ok [JSVal.num 5]) = outlineUnavailable :=
  c9_outline_capture_nonfatal.2.1 [JSVal.num 5] (by
    intro p hp s hcon
    simp only [List.mem_singleton] at hp
    subst hp
    have hv : stringifyDomPayload (JSVal.num 5) = .ok none := rfl
    rw [hv] at hcon
    simp at hcon)

theorem scanTools_eq_find (tools : List RemoteTool) :
    scanTools tools = (List.find? toolMatches tools).map RemoteTool.name := by
  induction tools with
  | nil => rfl
  | cons t rest ih =>
    cases h : toolMatches t with
    | true => simp [scanTools, List.find?, h]
    | false => simp [scanTools, List.find?, h, ih]

/-- C7 counterexample: the claim says an explicit override, once provided, is
returned unconditionally; but the code tests the override for JS truthiness,
so providing the empty-string override falls through to scanning and returns
the discovered tool name instead of the override. -/
theorem c7_counterexample :
    resolveCdpToolName (some "") (.ok [{ name := "chrome-devtools:call_cdp", description := none }])
      = some "chrome-devtools:call_cdp"
    ∧ resolveCdpToolName (some "")
        (.ok [{ name := "chrome-devtools:call_cdp", description := none }]) ≠ some "" := by
  constructor
  · rfl
  · decide

/-- C7 (amended): a non-empty explicit override is returned unconditionally
(an empty-string override is ignored because it is falsy); otherwise the
capability list is scanned in order and the first tool matching the
name/description heuristics wins (`List.find?` semantics), so resolving
`["foo", "chrome-devtools:call_cdp", "bar"]` with no override returns
`"chrome-devtools:call_cdp"`; with no match or a listing failure the result is
absent. -/
theorem c7_resolution :
    (∀ s fetched, s ≠ "" → resolveCdpToolName (some s) fetched = some s)
    ∧ (∀ fetched, resolveCdpToolName none fetched
        = (match fetched with
           | .error _ => none
           | .ok tools => (List.find? toolMatches tools).map RemoteTool.name))
    ∧ resolveCdpToolName none (.ok [{ name := "foo", description := none },
        { name := "chrome-devtools:call_cdp", description := none },
        { name := "bar", description := none }]) = some "chrome-devtools:call_cdp" := by
  refine ⟨?_, ?_, ?_⟩
  · intro s fetched hs
    simp [resolveCdpToolName, hs]
  · intro fetched
    cases fetched with
    | error e => rfl
    | ok tools =>
      simp only [resolveCdpToolName]
      exact scanTools_eq_find tools
  · rfl

/-- C7 witness: the non-empty override branch at a concrete override and
capability list. -/
theorem c7_witness :
    resolveCdpToolName (some "custom-tool") (.ok [{ name := "foo", description := none }])
      = some "custom-tool" :=
  c7_resolution.1 "custom-tool" (.ok [{ name := "foo", description := none }]) (by decide)

theorem parseTargetType_inv {v : JSVal} {t : String} (h : parseTargetType v = some t) :
    v = .str t ∧ (t = "dom-event" ∨ t = "function-call") := by
  cases v <;> simp [parseTargetType] at h
  case str s =>
    rcases h with ⟨hor, hts⟩
    subst hts
    exact ⟨rfl, hor⟩

theorem parseOptMin1_inv {v : JSVal} {o : Option String} (h : parseOptMin1 v = some o) :
    (v = .undefined ∧ o = none) ∨ (∃ s, v = .str s ∧ s ≠ "" ∧ o = some s) := by
  cases v <;> simp [parseOptMin1] at h
  case undefined => exact Or.inl ⟨rfl, h.symm⟩
  case str s =>
    rcases h with ⟨hne, ho⟩
    exact Or.inr ⟨s, rfl, hne, ho.symm⟩

/-- C8 counterexample: the claim says validation succeeds on either variant
whenever its required field is a non-empty string; but a `dom-event` plan with
a non-empty `selector` and a present-but-empty `eventType` is rejected by the
base shape (`z.string().min(1)`), so the claim as stated is false. -/
theorem c8_counterexample :
    validatePlan (.obj [("targetType", .str "dom-event"), ("selector", .str "#save-btn"),
      ("eventType", .str "")]) = none := by
  rfl

/-- C8 (amended): validation fails whenever `targetType` is missing or not one
of the two variants; a `dom-event` input lacking a non-empty string `selector`
fails, as does a `function-call` input lacking a non-empty string
`functionName`; every successful parse carries the declared variant with its
required field a non-empty string, and absent optional fields default to
absent (`consoleNotes` to the empty sequence); and validation succeeds
whenever the required field for the declared variant is a non-empty string and
every optional field that is present is itself well-formed. -/
theorem c8_validate :
    (∀ raw, parseTargetType (getProp raw "targetType") = none → validatePlan raw = none)
    ∧ (∀ raw, getProp raw "targetType" = .str "dom-event" →
        (∀ s, s ≠ "" → getProp raw "selector" ≠ .str s) → validatePlan raw = none)
    ∧ (∀ raw, getProp raw "targetType" = .str "function-call" →
        (∀ s, s ≠ "" → getProp raw "functionName" ≠ .str s) → validatePlan raw = none)
    ∧ (∀ raw p, validatePlan raw = some p →
        getProp raw "targetType" = .str p.targetType
        ∧ (p.targetType = "dom-event" ∨ p.targetType = "function-call")
        ∧ (p.targetType = "dom-event" → ∃ s, p.selector = some s ∧ s ≠ "")
        ∧ (p.targetType = "function-call" → ∃ s, p.functionName = some s ∧ s ≠ "")
        ∧ (getProp raw "consoleNotes" = .undefined → p.consoleNotes = [])
        ∧ (getProp raw "eventType" = .undefined → p.eventType = none)
        ∧ (getProp raw "explanation" = .undefined → p.explanation = none)
        ∧ (getProp raw "selector" = .undefined → p.selector = none)
        ∧ (getProp raw "functionName" = .undefined → p.functionName = none))
    ∧ (∀ fs tt sel et fn ex notes,
        parseTargetType (getProp (.obj fs) "targetType") = some tt →
        parseOptMin1 (getProp (.obj fs) "selector") = some sel →
        parseOptMin1 (getProp (.obj fs) "eventType") = some et →
        parseOptMin1 (getProp (.obj fs) "functionName") = some fn →
        parseOptString (getProp (.obj fs) "explanation") = some ex →
        parseNotes (getProp (.obj fs) "consoleNotes") = some notes →
        (tt = "dom-event" → sel.isSome = true) →
        (tt = "function-call" → fn.isSome = true) →
        validatePlan (.obj fs) = some (BreakpointPlan.mk tt sel et fn ex notes)) := by
  refine ⟨?_, ?_, ?_, ?_, ?_⟩
  · intro raw h
    cases raw <;> try rfl
    case obj fs =>
      simp [validatePlan, h]
  · intro raw h1 h2
    cases raw <;> try rfl
    case obj fs =>
      have htt : parseTargetType (getProp (JSVal.obj fs) "targetType") = some "dom-event" := by
        rw [h1]; rfl
      have hsel : parseOptMin1 (getProp (JSVal.obj fs) "selector") = none
          ∨ parseOptMin1 (getProp (JSVal.obj fs) "selector") = some none := by
        cases hv : getProp (JSVal.obj fs) "selector" with
        | undefined => exact Or.inr rfl
        | str s =>
          by_cases hse : s = ""
          · subst hse; exact Or.inl rfl
          · exact absurd hv (h2 s hse)
        | null => exact Or.inl rfl
        | bool b => exact Or.inl rfl
        | num n => exact Or.inl rfl
        | arr xs => exact Or.inl rfl
        | obj fs2 => exact Or.inl rfl
      rcases hsel with hsel | hsel
      · simp [validatePlan, hsel]
      · cases het : parseOptMin1 (getProp (JSVal.obj fs) "eventType") with
        | none => simp [validatePlan, htt, hsel, het]
        | some et =>
          cases hfn2 : parseOptMin1 (getProp (JSVal.obj fs) "functionName") with
          | none => simp [validatePlan, htt, hsel, het, hfn2]
          | some fn =>
            cases hex : parseOptString (getProp (JSVal.obj fs) "explanation") with
            | none => simp [validatePlan, htt, hsel, het, hfn2, hex]
            | some ex =>
              cases hnt : parseNotes (getProp (JSVal.obj fs) "consoleNotes") with
              | none => simp [validatePlan, htt, hsel, het, hfn2, hex, hnt]
              | some notes => simp [validatePlan, htt, hsel, het, hfn2, hex, hnt]
  · intro raw h1 h2
    cases raw <;> try rfl
    case obj fs =>
      have htt : parseTargetType (getProp (JSVal.obj fs) "targetType") = some "function-call" := by
        rw [h1]; rfl
      have hfn : parseOptMin1 (getProp (JSVal.obj fs) "functionName") = none
          ∨ parseOptMin1 (getProp (JSVal.obj fs) "functionName") = some none := by
        cases hv : getProp (JSVal.obj fs) "functionName" with
        | undefined => exact Or.inr rfl
        | str s =>
          by_cases hse : s = ""
          · subst hse; exact Or.inl rfl
          · exact absurd hv (h2 s hse)
        | null => exact Or.inl rfl
        | bool b => exact Or.inl rfl
        | num n => exact Or.inl rfl
        | arr xs => exact Or.inl rfl
        | obj fs2 => exact Or.inl rfl
      rcases hfn with hfn | hfn
      · simp [validatePlan, hfn]
      · cases hsel2 : parseOptMin1 (getProp (JSVal.obj fs) "selector") with
        | none => simp [validatePlan, hsel2]
        | some sel =>
          cases het : parseOptMin1 (getProp (JSVal.obj fs) "eventType") with
          | none => simp [validatePlan, hsel2, het]
          | some et =>
            cases hex : parseOptString (getProp (JSVal.obj fs) "explanation") with
            | none => simp [validatePlan, htt, hsel2, het, hfn, hex]
            | some ex =>
              cases hnt : parseNotes (getProp (JSVal.obj fs) "consoleNotes") with
              | none => simp [validatePlan, htt, hsel2, het, hfn, hex, hnt]
              | some notes => simp [validatePlan, htt, hsel2, het, hfn, hex, hnt]
  · intro raw p h
    cases raw <;> first
      | (exfalso; exact Option.noConfusion h)
      | skip
    case obj fs =>
      rw [validatePlan] at h
      split at h
      case _ tt sel et fn ex notes htt hsel het hfn hex hnotes =>
        split at h
        · exact absurd h (by simp)
        · split at h
          · exact absurd h (by simp)
          · rename_i hc1 hc2
            have hp := Option.some.inj h
            subst hp
            rcases parseTargetType_inv htt with ⟨hv, hor⟩
            refine ⟨hv, hor, ?_, ?_, ?_, ?_, ?_, ?_, ?_⟩
            · intro hde
              replace hde : tt = "dom-event" := hde
              have : ¬sel.isNone = true := by
                intro hn
                exact hc1 (by simp [hde, hn])
              rcases parseOptMin1_inv hsel with ⟨_, hnone⟩ | ⟨s, _, hne, hsome⟩
              · exact absurd (by simp [hnone]) this
              · exact ⟨s, hsome, hne⟩
            · intro hfc
              replace hfc : tt = "function-call" := hfc
              have : ¬fn.isNone = true := by
                intro hn
                exact hc2 (by simp [hfc, hn])
              rcases parseOptMin1_inv hfn with ⟨_, hnone⟩ | ⟨s, _, hne, hsome⟩
              · exact absurd (by simp [hnone]) this
              · exact ⟨s, hsome, hne⟩
            · intro hu
              rw [hu] at hnotes
              exact (Option.some.inj hnotes).symm
            · intro hu
              rw [hu] at het
              exact (Option.some.inj het).symm
            · intro hu
              rw [hu] at hex
              exact (Option.some.inj hex).symm
            · intro hu
              rw [hu] at hsel
              exact (Option.some.inj hsel).symm
            · intro hu
              rw [hu] at hfn
              exact (Option.some.inj hfn).symm
      case _ =>
        exact absurd h (by simp)
  · intro fs tt sel et fn ex notes h1 h2 h3 h4 h5 h6 hreq1 hreq2
    have hc1 : (tt = "dom-event" && sel.isNone) = false := by
      by_cases hde : tt = "dom-event"
      · have := hreq1 hde
        simp [hde, Option.isNone_iff_eq_none]
        cases sel with
        | none => simp at this
        | some s => simp
      · simp [hde]
    have hc2 : (tt = "function-call" && fn.isNone) = false := by
      by_cases hfc : tt = "function-call"
      · have := hreq2 hfc
        simp [hfc, Option.isNone_iff_eq_none]
        cases fn with
        | none => simp at this
        | some s => simp
      · simp [hfc]
    simp [validatePlan, h1, h2, h3, h4, h5, h6, hc1, hc2]

/-- C8 witness: a concrete `dom-event` plan with only the required field is
accepted with all defaults applied. -/
theorem c8_witness :
    validatePlan (.obj [("targetType", .str "dom-event"), ("selector", .str "#save-btn")])
      = some (BreakpointPlan.mk "dom-event" (some "#save-btn") none none none []) :=
  c8_validate.2.2.2.2 [("targetType", .str "dom-event"), ("selector", .str "#save-btn")]
    "dom-event" (some "#save-btn") none none none [] rfl rfl rfl rfl rfl rfl
    (fun _ => rfl) (fun h => absurd h (by decide))

theorem walkPath_error : ∀ (segs : List String) (context : RVal) (e : String),
    walkPath segs context = .error e → e = inOpTypeError := by
  intro segs
  induction segs with
  | nil =>
    intro c e h
    exact absurd h (by simp [walkPath])
  | cons part rest ih =>
    intro c e h
    rw [walkPath] at h
    by_cases h1 : rTruthy c = true
    · simp only [h1, if_true] at h
      by_cases h2 : rIsObject c = true
      · simp only [h2, if_true] at h
        by_cases h3 : rHasProp c part = true
        · simp only [h3, if_true] at h
          exact ih _ e h
        · simp only [h3, if_false, Bool.false_eq_true] at h
          exact absurd h (by simp)
      · simp only [h2, if_false, Bool.false_eq_true] at h
        simp only [Except.error.injEq] at h
        exact h.symm
    · simp only [h1, if_false, Bool.false_eq_true] at h
      exact absurd h (by simp)

/-- C2 counterexample: the claim fixes the eight bare status strings and says
the fragment never throws.  But every status the generated code returns is
prefixed with "[BreakpointGuide] " (and the missing-path-segment case is
reported as "missing segment"); the event fragment throws the SyntaxError of
`document.querySelector` on a syntactically invalid selector; and the
function-wrapping fragment throws a TypeError when an intermediate path
segment holds a truthy non-object (the `in` operator is applied to it). -/
theorem c2_counterexample :
    runEventFragment (EventFragment.mk "#save-btn" "click" "goal")
        (PageState.mk [] [] [("#save-btn", QueryOutcome.found)])
      = .ok ("[BreakpointGuide] instrumentation attached",
             PageState.mk ["#save-btn::click"] [("#save-btn", "click")]
               [("#save-btn", QueryOutcome.found)])
    ∧ "[BreakpointGuide] instrumentation attached" ∉ specStatusStrings
    ∧ runEventFragment (EventFragment.mk "!!!" "click" "goal")
        (PageState.mk [] [] [("!!!", QueryOutcome.syntaxError)])
      = .error querySelectorSyntaxError
    ∧ runFunctionFragment (FunctionFragment.mk ["a", "b", "c"] "goal")
        (.objv [("a", .prim true)]) = .error inOpTypeError := by
  exact ⟨rfl, by decide, rfl, rfl⟩

/-- C2 (amended): generation is total for every validated plan; the event
fragment returns only the three prefixed event statuses, except that it
throws the SyntaxError of `document.querySelector` exactly when the registry
does not already hold the key and the selector string is syntactically
invalid; the function fragment returns only the five prefixed function
statuses ("[BreakpointGuide] missing segment" for a missing path segment),
except that it throws a TypeError when an intermediate path segment resolves
to a truthy non-object value. -/
theorem c2_fragment_statuses :
    (∀ frag st s st2, runEventFragment frag st = .ok (s, st2) →
        s ∈ eventFragmentStatuses)
    ∧ (∀ frag st e, runEventFragment frag st = .error e →
        e = querySelectorSyntaxError
        ∧ st.handlers.contains (eventRegistryKey frag.selector frag.eventType) = false
        ∧ domLookup st.dom frag.selector = some .syntaxError)
    ∧ (∀ frag w s w1, runFunctionFragment frag w = .ok (s, w1) →
        s ∈ functionFragmentStatuses)
    ∧ (∀ frag w e, runFunctionFragment frag w = .error e → e = inOpTypeError) := by
  refine ⟨?_, ?_, ?_, ?_⟩
  · intro frag st s st2 h
    rw [runEventFragment] at h
    by_cases h1 : st.handlers.contains (eventRegistryKey frag.selector frag.eventType) = true
    · rw [if_pos h1] at h
      simp only [Except.ok.injEq, Prod.mk.injEq] at h
      rcases h with ⟨hs, -⟩
      rw [← hs]
      simp [eventFragmentStatuses]
    · rw [if_neg h1] at h
      cases hd : domLookup st.dom frag.selector with
      | none =>
        rw [hd] at h
        simp only [Except.ok.injEq, Prod.mk.injEq] at h
        rcases h with ⟨hs, -⟩
        rw [← hs]
        simp [eventFragmentStatuses]
      | some o =>
        cases o with
        | syntaxError =>
          rw [hd] at h
          exact Except.noConfusion h
        | found =>
          rw [hd] at h
          simp only [Except.ok.injEq, Prod.mk.injEq] at h
          rcases h with ⟨hs, -⟩
          rw [← hs]
          simp [eventFragmentStatuses]
  · intro frag st e h
    rw [runEventFragment] at h
    by_cases h1 : st.handlers.contains (eventRegistryKey frag.selector frag.eventType) = true
    · rw [if_pos h1] at h
      exact Except.noConfusion h
    · rw [if_neg h1] at h
      cases hd : domLookup st.dom frag.selector with
      | none =>
        rw [hd] at h
        exact Except.noConfusion h
      | some o =>
        cases o with
        | syntaxError =>
          rw [hd] at h
          simp only [Except.error.injEq] at h
          exact ⟨h.symm, by simpa using h1, rfl⟩
        | found =>
          rw [hd] at h
          exact Except.noConfusion h
  · intro frag w s w1 h
    rw [runFunctionFragment] at h
    by_cases hp : frag.path.isEmpty = true
    · rw [if_pos hp] at h
      simp only [Except.ok.injEq, Prod.mk.injEq] at h
      rcases h with ⟨hs, -⟩
      rw [← hs]
      simp [functionFragmentStatuses]
    · rw [if_neg hp] at h
      cases hwp : walkPath frag.path.dropLast w with
      | error e2 =>
        rw [hwp] at h
        exact Except.noConfusion h
      | ok o =>
        rw [hwp] at h
        cases o with
        | missingSegment =>
          simp only [Except.ok.injEq, Prod.mk.injEq] at h
          rcases h with ⟨hs, -⟩
          rw [← hs]
          simp [functionFragmentStatuses]
        | ctx c =>
          by_cases hct : rTruthy c = true
          · simp only [hct, if_true] at h
            cases ho : rGetProp c (frag.path.getLastD "") with
            | fn f =>
              rw [ho] at h
              by_cases hwr : isWrappedFn f = true
              · simp only [hwr, if_true, Except.ok.injEq, Prod.mk.injEq] at h
                rcases h with ⟨hs, -⟩
                rw [← hs]
                simp [functionFragmentStatuses]
              · simp only [hwr, Bool.false_eq_true, if_false, Except.ok.injEq,
                  Prod.mk.injEq] at h
                rcases h with ⟨hs, -⟩
                rw [← hs]
                simp [functionFragmentStatuses]
            | undefinedV =>
              rw [ho] at h
              simp only [Except.ok.injEq, Prod.mk.injEq] at h
              rcases h with ⟨hs, -⟩
              rw [← hs]
              simp [functionFragmentStatuses]
            | prim t =>
              rw [ho] at h
              simp only [Except.ok.injEq, Prod.mk.injEq] at h
              rcases h with ⟨hs, -⟩
              rw [← hs]
              simp [functionFragmentStatuses]
            | objv fs =>
              rw [ho] at h
              simp only [Except.ok.injEq, Prod.mk.injEq] at h
              rcases h with ⟨hs, -⟩
              rw [← hs]
              simp [functionFragmentStatuses]
          · simp only [hct, Bool.false_eq_true, if_false, Except.ok.injEq,
              Prod.mk.injEq] at h
            rcases h with ⟨hs, -⟩
            rw [← hs]
            simp [functionFragmentStatuses]
  · intro frag w e h
    rw [runFunctionFragment] at h
    by_cases hp : frag.path.isEmpty = true
    · rw [if_pos hp] at h
      exact Except.noConfusion h
    · rw [if_neg hp] at h
      cases hwp : walkPath frag.path.dropLast w with
      | error e2 =>
        rw [hwp] at h
        simp only [Except.error.injEq] at h
        rw [← h]
        exact walkPath_error _ _ _ hwp
      | ok o =>
        rw [hwp] at h
        cases o with
        | missingSegment => exact Except.noConfusion h
        | ctx c =>
          by_cases hct : rTruthy c = true
          · simp only [hct, if_true] at h
            cases ho : rGetProp c (frag.path.getLastD "") with
            | fn f =>
              rw [ho] at h
              by_cases hwr : isWrappedFn f = true
              · simp only [hwr, if_true] at h
                exact Except.noConfusion h
              · simp only [hwr, Bool.false_eq_true, if_false] at h
                exact Except.noConfusion h
            | undefinedV =>
              rw [ho] at h
              exact Except.noConfusion h
            | prim t =>
              rw [ho] at h
              exact Except.noConfusion h
            | objv fs =>
              rw [ho] at h
              exact Except.noConfusion h
          · simp only [hct, Bool.false_eq_true, if_false] at h
            exact Except.noConfusion h

/-- C2 witness: concrete runs of both fragments land in the allowed status
sets. -/
theorem c2_witness :
    ("[BreakpointGuide] wrapped function" ∈ functionFragmentStatuses)
    ∧ ("[BreakpointGuide] instrumentation attached" ∈ eventFragmentStatuses) :=
  ⟨c2_fragment_statuses.2.2.1 (FunctionFragment.mk ["x"] "g") (.objv [("x", .fn (.base 0))])
      "[BreakpointGuide] wrapped function" (.objv [("x", .fn (.wrap (.base 0)))]) rfl,
   c2_fragment_statuses.1 (EventFragment.mk "#a" "click" "g")
      (PageState.mk [] [] [("#a", QueryOutcome.found)])
      "[BreakpointGuide] instrumentation attached"
      (PageState.mk ["#a::click"] [("#a", "click")] [("#a", QueryOutcome.found)]) rfl⟩

/-- C3 counterexample: the first run of the event fragment against a fresh
page reports the prefixed status "[BreakpointGuide] instrumentation attached",
not the bare string "instrumentation attached" the claim quotes. -/
theorem c3_counterexample :
    runEventFragment (EventFragment.mk "#save-btn" "click" "g")
        (PageState.mk [] [] [("#save-btn", QueryOutcome.found)])
      = .ok ("[BreakpointGuide] instrumentation attached",
             PageState.mk ["#save-btn::click"] [("#save-btn", "click")]
               [("#save-btn", QueryOutcome.found)])
    ∧ "[BreakpointGuide] instrumentation attached" ≠ "instrumentation attached" :=
  ⟨rfl, by decide⟩

theorem rlookup_rSetField_self (fields : List (String × RVal)) (k : String) (v : RVal) :
    rlookup (rSetField fields k v) k = some v := by
  induction fields with
  | nil => simp [rSetField, rlookup]
  | cons kv rest ih =>
    cases kv with
    | mk k2 v2 =>
      by_cases hk : k2 = k
      · simp [rSetField, rlookup, hk]
      · simp [rSetField, rlookup, hk, ih]

theorem rGetProp_rSetProp_self (fs : List (String × RVal)) (k : String) (v : RVal) :
    rGetProp (rSetProp (.objv fs) k v) k = v := by
  simp [rSetProp, rGetProp, rlookup_rSetField_self]

theorem rHasProp_rSetProp_self (fs : List (String × RVal)) (k : String) (v : RVal) :
    rHasProp (rSetProp (.objv fs) k v) k = true := by
  simp [rSetProp, rHasProp, rlookup_rSetField_self]

theorem rGetProp_fn_objv {c : RVal} {m : String} {f : FuncVal}
    (h : rGetProp c m = .fn f) : ∃ fs, c = .objv fs := by
  cases c with
  | objv fs => exact ⟨fs, rfl⟩
  | undefinedV => exact absurd h (by simp [rGetProp])
  | prim t => exact absurd h (by simp [rGetProp])
  | fn f2 => exact absurd h (by simp [rGetProp])

theorem walkPath_setAtPath (v : RVal) : ∀ (pre : List String) (m : String) (w c : RVal),
    walkPath pre w = .ok (.ctx c) →
    walkPath pre (setAtPath w (pre ++ [m]) v) = .ok (.ctx (rSetProp c m v)) := by
  intro pre
  induction pre with
  | nil =>
    intro m w c h
    rw [walkPath] at h
    simp only [Except.ok.injEq, WalkOutcome.ctx.injEq] at h
    subst h
    rfl
  | cons k rest ih =>
    intro m w c h
    rw [walkPath] at h
    by_cases h1 : rTruthy w = true
    · simp only [h1, if_true] at h
      by_cases h2 : rIsObject w = true
      · simp only [h2, if_true] at h
        by_cases h3 : rHasProp w k = true
        · simp only [h3, if_true] at h
          cases w with
          | objv fs =>
            have hset : setAtPath (RVal.objv fs) ((k :: rest) ++ [m]) v
                = rSetProp (RVal.objv fs) k
                    (setAtPath (rGetProp (RVal.objv fs) k) (rest ++ [m]) v) := by
              cases rest <;> rfl
            rw [List.cons_append, walkPath]
            rw [← List.cons_append, hset]
            have hrec := ih m (rGetProp (RVal.objv fs) k) c h
            simp only [rSetProp]
            have htr : rTruthy (RVal.objv (rSetField fs k
                (setAtPath (rGetProp (RVal.objv fs) k) (rest ++ [m]) v))) = true := rfl
            have hio : rIsObject (RVal.objv (rSetField fs k
                (setAtPath (rGetProp (RVal.objv fs) k) (rest ++ [m]) v))) = true := rfl
            have hhp := rHasProp_rSetProp_self fs k
                (setAtPath (rGetProp (RVal.objv fs) k) (rest ++ [m]) v)
            simp only [rSetProp] at hhp
            have hgp := rGetProp_rSetProp_self fs k
                (setAtPath (rGetProp (RVal.objv fs) k) (rest ++ [m]) v)
            simp only [rSetProp] at hgp
            simp only [htr, hio, hhp, if_true, hgp]
            exact hrec
          | undefinedV => exact absurd h1 (by simp [rTruthy])
          | prim t => exact absurd h2 (by simp [rIsObject])
          | fn f => exact absurd h3 (by simp [rHasProp])
        · simp only [h3, if_false, Bool.false_eq_true] at h
          exact absurd h (by simp)
      · simp only [h2, if_false, Bool.false_eq_true] at h
        exact absurd h (by simp)
    · simp only [h1, if_false, Bool.false_eq_true] at h
      exact absurd h (by simp)

/-- C3 (amended): both instrumentation fragments are idempotent, with the
statuses prefixed as the code emits them.  Running the event fragment twice
for the same (selector, eventType) reports "[BreakpointGuide] instrumentation
attached" then "[BreakpointGuide] already registered", leaves the state of the
first run untouched, and attaches exactly one listener in total.  Wrapping the
same resolvable function path twice reports "[BreakpointGuide] wrapped
function" then "[BreakpointGuide] already wrapped" with no further state
change, and the installed wrapper forwards any call to the original exactly
once, returning its result unchanged. -/
theorem c3_idempotence :
    (∀ sel ev lbl (st : PageState),
      st.handlers.contains (eventRegistryKey sel ev) = false →
      domLookup st.dom sel = some .found →
      runEventFragment (EventFragment.mk sel ev lbl) st
          = .ok ("[BreakpointGuide] instrumentation attached",
                 PageState.mk (st.handlers ++ [eventRegistryKey sel ev])
                   (st.listeners ++ [(sel, ev)]) st.dom)
      ∧ runEventFragment (EventFragment.mk sel ev lbl)
            (PageState.mk (st.handlers ++ [eventRegistryKey sel ev])
              (st.listeners ++ [(sel, ev)]) st.dom)
          = .ok ("[BreakpointGuide] already registered",
                 PageState.mk (st.handlers ++ [eventRegistryKey sel ev])
                   (st.listeners ++ [(sel, ev)]) st.dom))
    ∧ (∀ (pre : List String) (m : String) (w c : RVal) (i : Nat) (lbl : String),
        walkPath pre w = .ok (.ctx c) →
        rGetProp c m = .fn (.base i) →
        runFunctionFragment (FunctionFragment.mk (pre ++ [m]) lbl) w
            = .ok ("[BreakpointGuide] wrapped function",
                   setAtPath w (pre ++ [m]) (.fn (.wrap (.base i))))
        ∧ runFunctionFragment (FunctionFragment.mk (pre ++ [m]) lbl)
              (setAtPath w (pre ++ [m]) (.fn (.wrap (.base i))))
            = .ok ("[BreakpointGuide] already wrapped",
                   setAtPath w (pre ++ [m]) (.fn (.wrap (.base i))))
        ∧ (∀ env args, callFn env (.wrap (.base i)) args = (env i args, 1))) := by
  constructor
  · intro sel ev lbl st h1 h2
    have h1m : eventRegistryKey sel ev ∉ st.handlers := by simpa using h1
    have hmem : eventRegistryKey sel ev ∈ st.handlers ++ [eventRegistryKey sel ev] := by
      simp
    constructor
    · rw [runEventFragment]
      simp [h1m, h2]
    · rw [runEventFragment]
      simp [hmem]
  · intro pre m w c i lbl hwalk hm
    obtain ⟨fs, hc⟩ := rGetProp_fn_objv hm
    have hne : ((pre ++ [m] : List String).isEmpty) = false := by
      cases pre <;> rfl
    have hdrop : (pre ++ [m] : List String).dropLast = pre := by
      simp
    have hlast : (pre ++ [m] : List String).getLastD "" = m := by
      simp
    have hctr : rTruthy c = true := by
      rw [hc]; rfl
    have hrun1 : runFunctionFragment (FunctionFragment.mk (pre ++ [m]) lbl) w
        = .ok ("[BreakpointGuide] wrapped function",
               setAtPath w (pre ++ [m]) (.fn (.wrap (.base i)))) := by
      rw [runFunctionFragment]
      simp only [hne, Bool.false_eq_true, if_false, hdrop, hwalk, hlast, hctr, if_true, hm]
      rfl
    refine ⟨hrun1, ?_, fun env args => rfl⟩
    have hwalk2 := walkPath_setAtPath (.fn (.wrap (.base i))) pre m w c hwalk
    have hget2 : rGetProp (rSetProp c m (.fn (.wrap (.base i)))) m = .fn (.wrap (.base i)) := by
      rw [hc]
      exact rGetProp_rSetProp_self fs m _
    rw [runFunctionFragment]
    simp only [hne, Bool.false_eq_true, if_false, hdrop, hwalk2, hlast]
    have hctr2 : rTruthy (rSetProp c m (.fn (.wrap (.base i)))) = true := by
      rw [hc]; rfl
    simp only [hctr2, if_true, hget2]
    rfl

/-- C3 witness: a concrete fresh page and a concrete resolvable function path
exercise both halves of the idempotence theorem. -/
theorem c3_witness :
    runEventFragment (EventFragment.mk "#btn" "click" "g")
        (PageState.mk [] [] [("#btn", QueryOutcome.found)])
      = .ok ("[BreakpointGuide] instrumentation attached",
             PageState.mk ["#btn::click"] [("#btn", "click")]
               [("#btn", QueryOutcome.found)])
    ∧ (runFunctionFragment (FunctionFragment.mk ["app", "save"] "g")
          (.objv [("app", .objv [("save", .fn (.base 0))])])
        = .ok ("[BreakpointGuide] wrapped function",
               .objv [("app", .objv [("save", .fn (.wrap (.base 0)))])])) :=
  ⟨(c3_idempotence.1 "#btn" "click" "g" (PageState.mk [] [] [("#btn", QueryOutcome.found)])
      rfl rfl).1,
   (c3_idempotence.2 ["app"] "save" (.objv [("app", .objv [("save", .fn (.base 0))])])
      (.objv [("save", .fn (.base 0))]) 0 "g" rfl rfl).1⟩

theorem one_le_sizeOf_jsval (v : JSVal) : 1 ≤ sizeOf v := by
  cases v <;> simp_arith

theorem one_le_sizeOf_jsval_list (l : List JSVal) : 1 ≤ sizeOf l := by
  cases l <;> simp_arith

theorem one_le_sizeOf_jsval_fields (l : List (String × JSVal)) : 1 ≤ sizeOf l := by
  cases l <;> simp_arith

theorem sizeOf_jlookup_lt {fields : List (String × JSVal)} {k : String} {v : JSVal}
    (h : jlookup fields k = some v) : sizeOf v < 1 + sizeOf fields := by
  induction fields with
  | nil => simp [jlookup] at h
  | cons kv rest ih =>
    rw [jlookup] at h
    split at h
    · cases h
      cases kv with
      | mk a b => simp_arith
    · have hlt := ih h
      cases kv with
      | mk a b =>
        simp_arith
        omega

theorem sizeOf_childrenOf_lt {node : JSVal} (h : objGuard node = true) :
    sizeOf (childrenOf node) < sizeOf node := by
  cases node with
  | obj fields =>
    rw [childrenOf, getProp]
    have hone := one_le_sizeOf_jsval_fields fields
    cases hl : jlookup fields "children" with
    | none => simp; omega
    | some v =>
      have hv := sizeOf_jlookup_lt hl
      simp only [Option.getD]
      cases v with
      | arr cs => simp at hv ⊢; omega
      | undefined => simp; omega
      | null => simp; omega
      | bool b => simp; omega
      | num n => simp; omega
      | str s => simp; omega
      | obj fs => simp; omega
  | arr xs =>
    rw [childrenOf, getProp]
    have := one_le_sizeOf_jsval_list xs
    simp; omega
  | undefined => simp [objGuard, truthy, isObjectType] at h
  | null => simp [objGuard, truthy, isObjectType] at h
  | bool b => simp [objGuard, truthy, isObjectType] at h
  | num n => simp [objGuard, truthy, isObjectType] at h
  | str s => simp [objGuard, truthy, isObjectType] at h

theorem append_nonstring {node : JSVal} (hg : objGuard node = true)
    (h : ∀ s, resolveNodeName node ≠ .str s) (d mD mC : Nat) :
    appendNodeSummary node d mD mC = .error toLowerCaseTypeError := by
  rw [appendNodeSummary]
  cases hres : resolveNodeName node with
  | str s => exact absurd hres (h s)
  | undefined => simp [hg, hres]
  | null => simp [hg, hres]
  | bool b => simp [hg, hres]
  | num n => simp [hg, hres]
  | arr xs => simp [hg, hres]
  | obj fs => simp [hg, hres]

theorem summaryLineShape_mono {d mD : Nat} {l : String}
    (h : SummaryLineShape (d + 1) mD l) : SummaryLineShape d mD l := by
  rcases h with ⟨d2, r, hlo, hhi, heq, hhead⟩ | ⟨d2, k, hlo, hhi, heq⟩
  · exact Or.inl ⟨d2, r, by omega, hhi, heq, hhead⟩
  · exact Or.inr ⟨d2, k, by omega, hhi, heq⟩

theorem summary_shape : ∀ (n : Nat),
    (∀ node : JSVal, sizeOf node ≤ n → ∀ d mD mC ls, d ≤ mD →
      appendNodeSummary node d mD mC = .ok ls → ∀ l ∈ ls, SummaryLineShape d mD l)
    ∧ (∀ cs : List JSVal, sizeOf cs ≤ n → ∀ b d mD mC ls, d ≤ mD →
      summarizeChildren cs b d mD mC = .ok ls → ∀ l ∈ ls, SummaryLineShape d mD l) := by
  intro n
  induction n with
  | zero =>
    constructor
    · intro node hsz
      exfalso
      have := one_le_sizeOf_jsval node
      omega
    · intro cs hsz
      exfalso
      have := one_le_sizeOf_jsval_list cs
      omega
  | succ n ih =>
    constructor
    · intro node hsz d mD mC ls hd happ l hl
      by_cases hg : objGuard node = true
      · cases hres : resolveNodeName node with
        | str s =>
          by_cases hst : s = "#text"
          · subst hst
            rw [append_text hg hres d mD mC] at happ
            by_cases hv : jsTrim (jsToString (coalesce (getProp node "nodeValue") (.str ""))) = ""
            · rw [if_pos hv] at happ
              injection happ with h2
              subst h2
              simp at hl
            · rw [if_neg hv] at happ
              injection happ with h2
              subst h2
              simp only [List.mem_singleton] at hl
              subst hl
              refine Or.inl ⟨d, "#text "
                ++ takeChars 60 (jsTrim (jsToString (coalesce (getProp node "nodeValue")
                    (.str "")))), le_refl d, hd, ?_, Or.inr ⟨_, rfl⟩⟩
              simp [String.append_assoc]
          · by_cases hdep : mD ≤ d
            · rw [append_at_limit node d mD mC hdep] at happ
              rw [truncatedSummary] at happ
              simp only [hg, if_true, hres, hst, Bool.false_eq_true, if_false] at happ
              by_cases hcc : (childrenOf node).length > 0
              · rw [if_pos hcc] at happ
                injection happ with h2
                subst h2
                simp only [List.mem_cons, List.mem_singleton, List.not_mem_nil,
                  or_false] at hl
                rcases hl with hl | hl
                · subst hl
                  refine Or.inl ⟨d, "<" ++ (toLowerStr s ++ (attrString node ++ ">")),
                    le_refl d, hd, ?_, Or.inl ⟨_, rfl⟩⟩
                  simp [String.append_assoc]
                · subst hl
                  exact Or.inr ⟨d, (childrenOf node).length, le_refl d, hd, rfl⟩
              · rw [if_neg hcc] at happ
                injection happ with h2
                subst h2
                simp only [List.mem_singleton] at hl
                subst hl
                refine Or.inl ⟨d, "<" ++ (toLowerStr s ++ (attrString node ++ ">")),
                  le_refl d, hd, ?_, Or.inl ⟨_, rfl⟩⟩
                simp [String.append_assoc]
            · have hdlt : d < mD := lt_of_not_ge hdep
              rw [append_element_below hg hres hst mC hdlt] at happ
              cases hch : summarizeChildren (childrenOf node) mC (d + 1) mD mC with
              | error e =>
                rw [hch] at happ
                simp only [Except.map] at happ
                exact Except.noConfusion happ
              | ok rest =>
                rw [hch] at happ
                simp only [Except.map] at happ
                injection happ with h2
                subst h2
                have hcs : sizeOf (childrenOf node) ≤ n := by
                  have := sizeOf_childrenOf_lt hg
                  omega
                have hrest := ih.2 (childrenOf node) hcs mC (d + 1) mD mC rest
                  (by omega) hch
                by_cases hova : (childrenOf node).length > mC
                · simp only [hova, if_true, List.mem_cons, List.mem_append,
                    List.mem_singleton, List.not_mem_nil, or_false] at hl
                  rcases hl with (hl | hl) | hl
                  · subst hl
                    refine Or.inl ⟨d, "<" ++ (toLowerStr s ++ (attrString node ++ ">")),
                      le_refl d, le_of_lt hdlt, ?_, Or.inl ⟨_, rfl⟩⟩
                    simp [String.append_assoc]
                  · exact summaryLineShape_mono (hrest l hl)
                  · subst hl
                    exact Or.inr ⟨d, (childrenOf node).length - mC, le_refl d,
                      le_of_lt hdlt, rfl⟩
                · simp only [hova, if_false, List.append_nil, List.mem_cons] at hl
                  rcases hl with hl | hl
                  · subst hl
                    refine Or.inl ⟨d, "<" ++ (toLowerStr s ++ (attrString node ++ ">")),
                      le_refl d, le_of_lt hdlt, ?_, Or.inl ⟨_, rfl⟩⟩
                    simp [String.append_assoc]
                  · exact summaryLineShape_mono (hrest l hl)
        | undefined =>
          rw [append_nonstring hg (by simp [hres]) d mD mC] at happ
          exact Except.noConfusion happ
        | null =>
          rw [append_nonstring hg (by simp [hres]) d mD mC] at happ
          exact Except.noConfusion happ
        | bool b =>
          rw [append_nonstring hg (by simp [hres]) d mD mC] at happ
          exact Except.noConfusion happ
        | num n2 =>
          rw [append_nonstring hg (by simp [hres]) d mD mC] at happ
          exact Except.noConfusion happ
        | arr xs =>
          rw [append_nonstring hg (by simp [hres]) d mD mC] at happ
          exact Except.noConfusion happ
        | obj fs =>
          rw [append_nonstring hg (by simp [hres]) d mD mC] at happ
          exact Except.noConfusion happ
      · rw [append_guard_false (by simpa using hg) d mD mC] at happ
        injection happ with h2
        subst h2
        simp at hl
    · intro cs hsz b d mD mC ls hd hsum l hl
      cases cs with
      | nil =>
        cases b with
        | zero =>
          rw [summarizeChildren] at hsum
          injection hsum with h2
          subst h2
          simp at hl
        | succ b2 =>
          rw [summarizeChildren] at hsum
          injection hsum with h2
          subst h2
          simp at hl
      | cons c rest =>
        cases b with
        | zero =>
          rw [summarizeChildren] at hsum
          injection hsum with h2
          subst h2
          simp at hl
        | succ b2 =>
          rw [summarizeChildren] at hsum
          cases hc : appendNodeSummary c d mD mC with
          | error e =>
            rw [hc] at hsum
            exact Except.noConfusion hsum
          | ok l1 =>
            rw [hc] at hsum
            cases hr : summarizeChildren rest b2 d mD mC with
            | error e =>
              rw [hr] at hsum
              exact Except.noConfusion hsum
            | ok l2 =>
              rw [hr] at hsum
              injection hsum with h2
              subst h2
              have hone1 := one_le_sizeOf_jsval c
              have hone2 := one_le_sizeOf_jsval_list rest
              have hsz2 : 1 + sizeOf c + sizeOf rest ≤ n + 1 := by
                simpa using hsz
              rcases List.mem_append.mp hl with h | h
              · exact ih.1 c (by omega) d mD mC l1 hd hc l h
              · exact ih.2 rest (by omega) b2 d mD mC l2 hd hr l h

/-- C4: once the current depth has reached `maxDepth` the summarizer does not
recurse into children: its output equals the non-recursive truncated form (the
node's own line plus, when there are any children at all, exactly one
synthetic line reporting the full omitted child count); and globally every
line of a summary started at depth 0 is an element or text line at nesting
level at most `maxDepth`, or an omission marker belonging to such a level. -/
theorem c4_depth_truncation :
    (∀ (node : JSVal) (d mD mC : Nat), mD ≤ d →
      appendNodeSummary node d mD mC = truncatedSummary node d)
    ∧ (∀ (node : JSVal) (mD mC : Nat) (ls : List String),
        appendNodeSummary node 0 mD mC = .ok ls → ∀ l ∈ ls, SummaryLineShape 0 mD l) :=
  ⟨fun node d mD mC hd => append_at_limit node d mD mC hd,
   fun node mD mC ls happ =>
     (summary_shape (sizeOf node)).1 node (le_refl _) 0 mD mC ls (Nat.zero_le mD) happ⟩

/-- C4 witness: a concrete element node summarized exactly at the depth limit
emits its own line and one omission marker for its single child, and a
concrete text line has the classified shape. -/
theorem c4_witness :
    (appendNodeSummary (.obj [("nodeName", .str "DIV"),
        ("children", .arr [.obj [("nodeName", .str "SPAN")]])]) 3 3 8
      = truncatedSummary (.obj [("nodeName", .str "DIV"),
        ("children", .arr [.obj [("nodeName", .str "SPAN")]])]) 3)
    ∧ truncatedSummary (.obj [("nodeName", .str "DIV"),
        ("children", .arr [.obj [("nodeName", .str "SPAN")]])]) 3
      = .ok ["      <div>", "        ... (1 more children)"]
    ∧ SummaryLineShape 0 3 "#text hi" := by
  refine ⟨c4_depth_truncation.1 _ 3 3 8 (le_refl 3), by decide, ?_⟩
  have happ : appendNodeSummary (.obj [("nodeName", .str "#text"), ("nodeValue", .str "hi")])
      0 3 8 = .ok ["#text hi"] :=
    (@append_text (.obj [("nodeName", .str "#text"), ("nodeValue", .str "hi")]) rfl rfl
      0 3 8).trans (by decide)
  exact c4_depth_truncation.2 _ 3 8 ["#text hi"] happ "#text hi" (List.mem_singleton.mpr rfl)

theorem summarizeChildren_eq_take : ∀ (cs : List JSVal) (b d mD mC : Nat),
    summarizeChildren cs b d mD mC = renderChildren (cs.take b) d mD mC := by
  intro cs
  induction cs with
  | nil =>
    intro b d mD mC
    cases b with
    | zero => simp [summarizeChildren, renderChildren]
    | succ b2 => simp [summarizeChildren, renderChildren]
  | cons c rest ih =>
    intro b d mD mC
    cases b with
    | zero => simp [summarizeChildren, renderChildren]
    | succ b2 =>
      have ih2 := ih b2 d mD mC
      rw [renderChildren] at ih2
      rw [renderChildren]
      simp only [List.take_succ_cons, List.length_cons]
      simp only [summarizeChildren]
      rw [ih2]

/-- C5: for every element node strictly below the depth limit, the summarizer
renders exactly the children `slice(0, maxChildrenPerNode)` in their original
order (each at depth one deeper), and when the node has more children than the
budget it appends exactly one synthetic marker line stating the omitted count,
namely the total child count minus the number rendered. -/
theorem c5_children_truncation :
    ∀ (node : JSVal) (d mD mC : Nat) (tag : String), objGuard node = true →
      resolveNodeName node = .str tag → tag ≠ "#text" → d < mD →
      appendNodeSummary node d mD mC =
        (renderChildren ((childrenOf node).take mC) (d + 1) mD mC).map
          (fun rest => (indentStr d ++ "<" ++ toLowerStr tag ++ attrString node ++ ">") :: rest
            ++ (if (childrenOf node).length > mC then
                  [omittedLine d ((childrenOf node).length - mC)]
                else [])) := by
  intro node d mD mC tag hg hres ht hd
  rw [append_element_below hg hres ht mC hd, summarizeChildren_eq_take]

/-- C5 witness: a concrete node with three children and a budget of two
renders the first two children and one marker reporting one omitted child. -/
theorem c5_witness :
    appendNodeSummary (.obj [("nodeName", .str "UL"),
        ("children", .arr [.null, .null, .null])]) 0 3 2
      = (renderChildren ((childrenOf (.obj [("nodeName", .str "UL"),
            ("children", .arr [.null, .null, .null])])).take 2) 1 3 2).map
          (fun rest => (indentStr 0 ++ "<" ++ toLowerStr "UL"
              ++ attrString (.obj [("nodeName", .str "UL"),
                  ("children", .arr [.null, .null, .null])]) ++ ">") :: rest
            ++ (if (childrenOf (.obj [("nodeName", .str "UL"),
                    ("children", .arr [.null, .null, .null])])).length > 2 then
                  [omittedLine 0 ((childrenOf (.obj [("nodeName", .str "UL"),
                      ("children", .arr [.null, .null, .null])])).length - 2)]
                else [])) :=
  c5_children_truncation (.obj [("nodeName", .str "UL"),
    ("children", .arr [.null, .null, .null])]) 0 3 2 "UL" rfl rfl (by decide) (by decide)

/-- C6: a text node (`nodeName == "#text"`) whose trimmed value is empty emits
no output line at all; otherwise it emits exactly one line consisting of the
indentation, "#text " and the first 60 characters of the trimmed value. -/
theorem c6_text_nodes :
    ∀ (node : JSVal) (d mD mC : Nat), objGuard node = true →
      getProp node "nodeName" = .str "#text" →
      (jsTrim (jsToString (coalesce (getProp node "nodeValue") (.str ""))) = "" →
        appendNodeSummary node d mD mC = .ok [])
      ∧ (jsTrim (jsToString (coalesce (getProp node "nodeValue") (.str ""))) ≠ "" →
        appendNodeSummary node d mD mC =
          .ok [indentStr d ++ "#text "
            ++ takeChars 60 (jsTrim (jsToString (coalesce (getProp node "nodeValue")
                (.str ""))))]) := by
  intro node d mD mC hg hn
  have hres : resolveNodeName node = .str "#text" := by
    simp [resolveNodeName, hn, coalesce, nullish]
  have h := append_text hg hres d mD mC
  constructor
  · intro hv
    rw [h, if_pos hv]
  · intro hv
    rw [h, if_neg hv]

/-- C6 witness: a whitespace-padded text node is trimmed and rendered as one
line, and a whitespace-only text node renders nothing. -/
theorem c6_witness :
    appendNodeSummary (.obj [("nodeName", .str "#text"), ("nodeValue", .str "  hi  ")]) 0 3 8
      = .ok ["#text hi"]
    ∧ appendNodeSummary (.obj [("nodeName", .str "#text"), ("nodeValue", .str "   ")]) 0 3 8
      = .ok [] := by
  constructor
  · have h := (c6_text_nodes (.obj [("nodeName", .str "#text"), ("nodeValue", .str "  hi  ")])
      0 3 8 rfl rfl).2 (by decide)
    rw [h]
    decide
  · exact (c6_text_nodes (.obj [("nodeName", .str "#text"), ("nodeValue", .str "   ")])
      0 3 8 rfl rfl).1 (by decide)

end ChromeMcpAgent
